import Mathlib

/-!
# Bare-metal (Ironic) client bindings: request builders and helpers

A shallow embedding of the request-building code of
`openstack/baremetal/noauth/requests.go`, `openstack/baremetal/v1/nodes/requests.go`
and `openstack/baremetal/v1/nodes/util.go`.

Conventions of the embedding:

* a Go `string` is a Lean `String`; a Go `[]byte` is a list of bytes `List Byte`;
* a Go `error` is identified with its message (`err.Error()`), `nil` being `none`;
* a Go function returning `(T, error)` returns a pair `T × Option GoError` when both
  components are meaningful in the source, and `Except GoError T` when the source
  returns a `nil` value next to every non-nil error;
* interactions with the outside world (file system, sub-processes) are explicit
  arguments, and so are the functions of `urls.go` and the HTTP transport;
* the functions of Go's standard library that the code calls (`net/url`, `encoding/json`,
  `encoding/base64`, `compress/gzip`, `hash/crc32`) are written out after their
  documentation; the DEFLATE compressor behind `gzip.Writer` is an argument, and the
  decompressor `inflate` of RFC 1951 says which compressors are valid.
-/

namespace Gophercloud

/-- A Go `error`, identified with the text returned by its `Error()` method. -/
abbrev GoError := String

/-! ## Query strings (`net/url` and `gophercloud.BuildQueryString`) -/

/-- The characters `url.QueryEscape` leaves alone: ASCII letters, digits and `-_.~`. -/
def isUnreserved (c : Char) : Bool :=
  ('a'.toNat ≤ c.toNat && c.toNat ≤ 'z'.toNat) ||
  ('A'.toNat ≤ c.toNat && c.toNat ≤ 'Z'.toNat) ||
  ('0'.toNat ≤ c.toNat && c.toNat ≤ '9'.toNat) ||
  c == '-' || c == '_' || c == '.' || c == '~'

/-- Upper-case hexadecimal digit of a number below sixteen. -/
def upperHex (n : Nat) : Char :=
  "0123456789ABCDEF".data.getD n '0'

/-- The escape `%XX` of one byte. -/
def percentByte (b : UInt8) : List Char :=
  ['%', upperHex (b.toNat / 16), upperHex (b.toNat % 16)]

/-- What `url.QueryEscape` writes for one character: itself when unreserved, `+` for a
space, and otherwise the `%XX` escapes of the bytes of its UTF-8 encoding. -/
def escapeChar (c : Char) : List Char :=
  if isUnreserved c then [c]
  else if c = ' ' then ['+']
  else (String.utf8EncodeChar c).flatMap percentByte

/-- Go's `url.QueryEscape`. -/
def QueryEscape (s : String) : String :=
  ⟨s.data.flatMap escapeChar⟩

/-- A string needs no URL escaping when `url.QueryEscape` would keep every character. -/
def needsNoEscape (s : String) : Prop :=
  ∀ c ∈ s.data, isUnreserved c = true

instance (s : String) : Decidable (needsNoEscape s) := by
  unfold needsNoEscape; infer_instance

/-- Byte-wise ordering of Go strings (the order `sort.Strings` uses), on character lists. -/
def charsLess : List Char → List Char → Bool
  | [], [] => false
  | [], _ :: _ => true
  | _ :: _, [] => false
  | a :: as, b :: bs =>
    if a.toNat < b.toNat then true
    else if b.toNat < a.toNat then false
    else charsLess as bs

/-- Go's `url.Values`: for each key the values added under it, in the order added.
The keys are kept distinct by `Values.Add`. -/
abbrev Values := List (String × List String)

/-- Go's `Values.Add`: append the value to the list kept under the key. -/
def Values.Add : Values → String → String → Values
  | [], key, value => [(key, [value])]
  | (k, vs) :: rest, key, value =>
    if k = key then (k, vs ++ [value]) :: rest
    else (k, vs) :: Values.Add rest key value

/-- Insert one key with its values into a list sorted by key. -/
def insertByKey (e : String × List String) : Values → Values
  | [] => [e]
  | x :: xs => if charsLess x.1.data e.1.data then x :: insertByKey e xs else e :: x :: xs

/-- The entries sorted by key, as `Values.Encode` visits them. -/
def sortByKey : Values → Values
  | [] => []
  | x :: xs => insertByKey x (sortByKey xs)

/-- Go's `Values.Encode`: `key=value` for every value, keys sorted, joined by `&`, both
sides query-escaped. -/
def Values.Encode (v : Values) : String :=
  "&".intercalate
    ((sortByKey v).flatMap fun e => e.2.map fun value => QueryEscape e.1 ++ "=" ++ QueryEscape value)

/-- The part of Go's `url.URL` that `BuildQueryString` fills in. -/
structure URL where
  RawQuery : String
deriving DecidableEq, Repr

/-- Go's `URL.String` for a URL that has nothing but a raw query. -/
def URL.String (u : URL) : String :=
  if u.RawQuery ≠ "" then "?" ++ u.RawQuery else ""

/-- The value of a struct field carrying a `q` tag, by its Go kind. -/
inductive QueryValue where
  | str (s : String)
  | bool (b : Bool)
  | int (i : Int)
  | strs (l : List String)
deriving DecidableEq, Repr

/-- Whether a tagged field holds the zero value of its type (it is then left out). -/
def QueryValue.isZero : QueryValue → Bool
  | .str s => s == ""
  | .bool b => !b
  | .int i => i == 0
  | .strs l => l.isEmpty

/-- Add the parameter(s) of one non-zero field under its tag: a string as it is, an
integer in decimal, a boolean as `true`, a list as one parameter per element. -/
def QueryValue.addTo (params : Values) (tag : String) : QueryValue → Values
  | .str s => params.Add tag s
  | .bool b => params.Add tag (if b then "true" else "false")
  | .int i => params.Add tag (toString i)
  | .strs l => l.foldl (fun acc s => acc.Add tag s) params

/-- Modelled from the spec: `gophercloud.BuildQueryString` is not among the source files;
the spec describes it as the generic renderer of an options struct into a query string
that maps each `q:"name"` tag to a parameter, omits a field that is empty, and writes a
list field as repeated `name=<element>` parameters. The argument is the list of tagged
fields of the struct, in declaration order. None of the structs rendered here has a
required field, so the renderer reports no error. -/
def BuildQueryString (fields : List (String × QueryValue)) : URL × Option GoError :=
  let params : Values :=
    fields.foldl (fun acc f => if f.2.isZero then acc else f.2.addTo acc f.1) []
  ({ RawQuery := params.Encode }, none)

/-! ## Listing nodes (`nodes/requests.go`) -/

/-- The provision state of a node; a string type in the source. -/
abbrev ProvisionState := String

/-- The filters of a node listing (`nodes.ListOpts`), with the source's field names. -/
structure ListOpts where
  InstanceUUID : String := ""
  ChassisUUID : String := ""
  Maintenance : Bool := false
  Associated : Bool := false
  ProvisionState : ProvisionState := ""
  Driver : String := ""
  ResourceClass : String := ""
  ConductorGroup : String := ""
  Fault : String := ""
  Fields : List String := []
  Limit : Int := 0
  Marker : String := ""
  SortDir : String := ""
  SortKey : String := ""
  Owner : String := ""
deriving DecidableEq, Repr

/-- The `q` tags of `ListOpts` with the values of their fields, in declaration order. -/
def ListOpts.queryFields (opts : ListOpts) : List (String × QueryValue) :=
  [ ("instance_uuid", .str opts.InstanceUUID),
    ("chassis_uuid", .str opts.ChassisUUID),
    ("maintenance", .bool opts.Maintenance),
    ("associated", .bool opts.Associated),
    ("provision_state", .str opts.ProvisionState),
    ("driver", .str opts.Driver),
    ("resource_class", .str opts.ResourceClass),
    ("conductor_group", .str opts.ConductorGroup),
    ("fault", .str opts.Fault),
    ("fields", .strs opts.Fields),
    ("limit", .int opts.Limit),
    ("marker", .str opts.Marker),
    ("sort_dir", .str opts.SortDir),
    ("sort_key", .str opts.SortKey),
    ("owner", .str opts.Owner) ]

/-- The method `ListOpts.ToNodeListQuery`: the query string of the options and the renderer's error. -/
def ListOpts.ToNodeListQuery (opts : ListOpts) : String × Option GoError :=
  let (q, err) := BuildQueryString opts.queryFields
  (q.String, err)

/-- The method `ListOpts.ToNodeListDetailQuery`: as `ToNodeListQuery`, after refusing any `Fields`. -/
def ListOpts.ToNodeListDetailQuery (opts : ListOpts) : String × Option GoError :=
  if opts.Fields.length > 0 then
    ("", some "fields is not a valid option when getting a detailed listing of nodes")
  else
    let (q, err) := BuildQueryString opts.queryFields
    (q.String, err)

/-! ## Service clients and pagers (`gophercloud`, `pagination`) -/

/-- The part of `gophercloud.ProviderClient` the bindings use: the token sent along. -/
structure ProviderClient where
  TokenID : String := ""
deriving DecidableEq, Repr

/-- The part of `gophercloud.ServiceClient` the bindings use. `ProviderClient` is a
pointer in the source, `none` being `nil`. -/
structure ServiceClient where
  ProviderClient : Option ProviderClient := none
  Endpoint : String := ""
deriving DecidableEq, Repr

/-- The page constructors handed to a pager; the listings of nodes build `NodePage`s. -/
inductive PageConstructor where
  | nodePage
deriving DecidableEq, Repr

/-- Go's `pagination.Pager`: the client and URL of the first request, the constructor
of its pages, and the error it was created with. The zero value has none of them. -/
structure Pager where
  client : Option ServiceClient := none
  initialURL : String := ""
  createPage : Option PageConstructor := none
  Err : Option GoError := none
deriving DecidableEq, Repr

/-- Modelled from the spec: `pagination.NewPager` is not among the source files; the spec
treats the pagination engine as a supplied capability that walks the pages lazily from
a first URL, so creating a pager only records the client, the URL and the constructor. -/
def NewPager (client : ServiceClient) (initialURL : String) (createPage : PageConstructor) :
    Pager :=
  { client := some client, initialURL := initialURL, createPage := some createPage }

/-- The interface `ListOptsBuilder`: an implementation is given by what its two methods
return. -/
structure ListOptsBuilder where
  ToNodeListQuery : String × Option GoError
  ToNodeListDetailQuery : String × Option GoError
deriving DecidableEq, Repr

/-- The struct `ListOpts` as an implementation of `ListOptsBuilder`. -/
def ListOpts.asBuilder (opts : ListOpts) : ListOptsBuilder :=
  { ToNodeListQuery := opts.ToNodeListQuery
    ToNodeListDetailQuery := opts.ToNodeListDetailQuery }

/-- The function `nodes.ListDetail`; `listDetailURL` (of `urls.go`, not among the source files) is an
argument and a `nil` builder is `none`. -/
def ListDetail (listDetailURL : ServiceClient → String) (client : ServiceClient)
    (opts : Option ListOptsBuilder) : Pager :=
  let url := listDetailURL client
  match opts with
  | some o =>
    match o.ToNodeListDetailQuery with
    | (_, some err) => { Err := some err }
    | (query, none) => NewPager client (url ++ query) .nodePage
  | none => NewPager client url .nodePage

/-! ## Updating a node (`nodes/requests.go`) -/

/-- A value held in a `map[string]interface{}` request body. -/
inductive BodyValue where
  | str (s : String)
  | int (i : Int)
  | bool (b : Bool)
  | null
deriving DecidableEq, Repr

/-- A `map[string]interface{}`, as the list of its entries; the keys are distinct. -/
abbrev BodyMap := List (String × BodyValue)

/-- The value stored under a key, if any. -/
def BodyMap.get? (m : BodyMap) (key : String) : Option BodyValue :=
  (m.find? fun e => e.1 == key).map Prod.snd

/-- The keys of the map. -/
def BodyMap.keys (m : BodyMap) : List String :=
  m.map Prod.fst

/-- The interface `Patch`: an implementation is given by what `ToNodeUpdateMap` returns. -/
structure Patch where
  ToNodeUpdateMap : BodyMap
deriving DecidableEq, Repr

/-- The type `UpdateOpts`, a slice of patches. -/
abbrev UpdateOpts := List Patch

/-- The operation of a patch; a string type in the source. -/
abbrev UpdateOp := String

/-- The operation `replace`. -/
def ReplaceOp : UpdateOp := "replace"
/-- The operation `add`. -/
def AddOp : UpdateOp := "add"
/-- The operation `remove`. -/
def RemoveOp : UpdateOp := "remove"

/-- The struct `UpdateOperation`. Its declaration tags `Op` and `Path` as required and
`Value` as `json:"value,omitempty"`. -/
structure UpdateOperation where
  Op : UpdateOp := ""
  Path : String := ""
  Value : String := ""
deriving DecidableEq, Repr

/-- The method `UpdateOperation.ToNodeUpdateMap`: a map literal with the three keys. -/
def UpdateOperation.ToNodeUpdateMap (opts : UpdateOperation) : BodyMap :=
  [ ("op", .str opts.Op),
    ("path", .str opts.Path),
    ("value", .str opts.Value) ]

/-- The struct `UpdateOperation` as an implementation of `Patch`. -/
def UpdateOperation.asPatch (opts : UpdateOperation) : Patch :=
  { ToNodeUpdateMap := opts.ToNodeUpdateMap }

/-- The request options `Update` passes to the client. -/
structure RequestOpts where
  JSONBody : List BodyMap
  OkCodes : List Nat
deriving DecidableEq, Repr

/-- The first loop of `Update`: `body[i] = patch.ToNodeUpdateMap()` for every index. -/
def updateBody (opts : UpdateOpts) : List BodyMap :=
  opts.map fun patch => patch.ToNodeUpdateMap

/-- The function `nodes.Update`. The transport `Request` of the client and `updateURL` (of `urls.go`)
are not among the source files and are arguments; the result is what the transport
answers to the one request made. -/
def Update {Result : Type} (Request : String → String → RequestOpts → Result)
    (updateURL : ServiceClient → String → String)
    (client : ServiceClient) (id : String) (opts : UpdateOpts) : Result :=
  let body := updateBody opts
  Request "PATCH" (updateURL client id) { JSONBody := body, OkCodes := [200] }

/-! ### JSON text of a body (`encoding/json`) -/

/-- Lower-case hexadecimal digit of a number below sixteen. -/
def lowerHex (n : Nat) : Char :=
  "0123456789abcdef".data.getD n '0'

/-- What `json.Marshal` writes for one character of a string. -/
def jsonEscapeChar (c : Char) : List Char :=
  if c = '"' then ['\\', '"']
  else if c = '\\' then ['\\', '\\']
  else if c = '\n' then ['\\', 'n']
  else if c = '\r' then ['\\', 'r']
  else if c = '\t' then ['\\', 't']
  else if c.toNat < 32 ∨ c = '<' ∨ c = '>' ∨ c = '&' then
    ['\\', 'u', '0', '0', lowerHex (c.toNat / 16), lowerHex (c.toNat % 16)]
  else if c.toNat = 0x2028 ∨ c.toNat = 0x2029 then
    ['\\', 'u', '2', '0', '2', lowerHex (c.toNat % 16)]
  else [c]

/-- The JSON text of a string: quoted and escaped. -/
def jsonString (s : String) : String :=
  "\"" ++ ⟨s.data.flatMap jsonEscapeChar⟩ ++ "\""

/-- The JSON text of a body value. -/
def BodyValue.toJSON : BodyValue → String
  | .str s => jsonString s
  | .int i => toString i
  | .bool b => if b then "true" else "false"
  | .null => "null"

/-- Insert one entry into a list of entries sorted by key. -/
def insertEntry (e : String × BodyValue) : BodyMap → BodyMap
  | [] => [e]
  | x :: xs => if charsLess x.1.data e.1.data then x :: insertEntry e xs else e :: x :: xs

/-- The entries of a map sorted by key, the order in which `json.Marshal` writes them. -/
def sortEntries : BodyMap → BodyMap
  | [] => []
  | x :: xs => insertEntry x (sortEntries xs)

/-- The JSON object `json.Marshal` writes for a map. -/
def BodyMap.toJSON (m : BodyMap) : String :=
  "\x7b" ++ ",".intercalate ((sortEntries m).map fun e => jsonString e.1 ++ ":" ++ e.2.toJSON)
    ++ "\x7d"

/-- The JSON array `json.Marshal` writes for a slice of maps. -/
def bodyToJSON (body : List BodyMap) : String :=
  "[" ++ ",".intercalate (body.map BodyMap.toJSON) ++ "]"

/-! ## The endpoint of a service without authentication (`noauth/requests.go`) -/

/-- Modelled from the spec: `gophercloud.NormalizeURL` is not among the source files; it
makes a URL end in a slash, appending one when the URL does not already end in one. -/
def NormalizeURL (url : String) : String :=
  if url.data.getLast? = some '/' then url else url ++ "/"

/-- The struct `EndpointOpts`. -/
structure EndpointOpts where
  IronicEndpoint : String := ""
deriving DecidableEq, Repr

/-- The function `noauth.initClientOpts`: the empty endpoint is refused; otherwise the
endpoint of the client is built from the normalised endpoint followed by the token of the
provider, normalised again, and the provider is attached. -/
def initClientOpts (client : ProviderClient) (eo : EndpointOpts) :
    Except GoError ServiceClient :=
  let sc : ServiceClient := {}
  if eo.IronicEndpoint = "" then
    .error "IronicEndpoint is required"
  else
    let endpoint := NormalizeURL eo.IronicEndpoint ++ client.TokenID
    let sc := { sc with Endpoint := NormalizeURL endpoint }
    let sc := { sc with ProviderClient := some client }
    .ok sc

/-- The function `noauth.NewBaremetalNoAuth`: `initClientOpts` with a provider whose token
is `fake-token`. -/
def NewBaremetalNoAuth (eo : EndpointOpts) : Except GoError ServiceClient :=
  initClientOpts { TokenID := "fake-token" } eo

/-! ## Bytes and base64 (`encoding/base64`) -/

/-- A byte. -/
abbrev Byte := Fin 256

/-- The bytes of a (Go) string: the UTF-8 encoding of its characters. -/
def stringBytes (s : String) : List Byte :=
  (s.data.flatMap String.utf8EncodeChar).map fun u => Fin.ofNat u.toNat

/-- The alphabet of `base64.StdEncoding`. -/
def base64Alphabet : List Char :=
  "ABCDEFGHIJKLMNOPQRSTUVWXYZabcdefghijklmnopqrstuvwxyz0123456789+/".data

/-- The character that writes a six-bit value. -/
def base64Char (n : Nat) : Char :=
  base64Alphabet.getD n '='

/-- The six-bit value a character of the alphabet stands for. -/
def base64Index (c : Char) : Option Nat :=
  let i := base64Alphabet.indexOf c
  if i < 64 then some i else none

/-- The characters of `base64.StdEncoding.EncodeToString`: four characters for every
three bytes, the last group padded with `=`. -/
def base64Encode : List Byte → List Char
  | a :: b :: c :: rest =>
    base64Char (a.val / 4) :: base64Char (a.val % 4 * 16 + b.val / 16) ::
      base64Char (b.val % 16 * 4 + c.val / 64) :: base64Char (c.val % 64) :: base64Encode rest
  | [a, b] =>
    [base64Char (a.val / 4), base64Char (a.val % 4 * 16 + b.val / 16),
      base64Char (b.val % 16 * 4), '=']
  | [a] => [base64Char (a.val / 4), base64Char (a.val % 4 * 16), '=', '=']
  | [] => []

/-- Go's `base64.StdEncoding.EncodeToString`. -/
def EncodeToString (src : List Byte) : String :=
  ⟨base64Encode src⟩

/-- Decoding of padded standard base64: groups of four characters of the alphabet, the
last one possibly ending in one or two `=`. Anything else is refused. -/
def base64Decode : List Char → Option (List Byte)
  | [] => some []
  | c1 :: c2 :: c3 :: c4 :: rest =>
    if rest = [] ∧ c4 = '=' then
      if c3 = '=' then do
        let s1 ← base64Index c1
        let s2 ← base64Index c2
        some [Fin.ofNat (s1 * 4 + s2 / 16)]
      else do
        let s1 ← base64Index c1
        let s2 ← base64Index c2
        let s3 ← base64Index c3
        some [Fin.ofNat (s1 * 4 + s2 / 16), Fin.ofNat (s2 % 16 * 16 + s3 / 4)]
    else do
      let s1 ← base64Index c1
      let s2 ← base64Index c2
      let s3 ← base64Index c3
      let s4 ← base64Index c4
      let tail ← base64Decode rest
      some (Fin.ofNat (s1 * 4 + s2 / 16) :: Fin.ofNat (s2 % 16 * 16 + s3 / 4) ::
        Fin.ofNat (s3 % 4 * 64 + s4) :: tail)
  | _ => none

/-- Go's `base64.StdEncoding.DecodeString`, on the strings the encoder writes. -/
def DecodeString (s : String) : Option (List Byte) :=
  base64Decode s.data

/-! ## Bit streams, DEFLATE and gzip (`compress/flate`, `compress/gzip`, `hash/crc32`) -/

/-- A stream of bits, in the order in which DEFLATE reads them: within every byte from
the least significant bit to the most significant. -/
abbrev Bits := List Bool

/-- The number written by bits, least significant first. -/
def bitsValue : Bits → Nat
  | [] => 0
  | b :: rest => b.toNat + 2 * bitsValue rest

/-- The `n` low bits of a number, least significant first. -/
def natBits : Nat → Nat → Bits
  | 0, _ => []
  | n + 1, v => (v % 2 == 1) :: natBits n (v / 2)

/-- The bits of the bytes of a stream. -/
def bytesBits (src : List Byte) : Bits :=
  src.flatMap fun b => natBits 8 b.val

/-- The bytes that hold a stream of bits; the last byte is filled up with zero bits. -/
def bitsBytes : Bits → List Byte
  | b0 :: b1 :: b2 :: b3 :: b4 :: b5 :: b6 :: b7 :: rest =>
    Fin.ofNat (bitsValue [b0, b1, b2, b3, b4, b5, b6, b7]) :: bitsBytes rest
  | [] => []
  | last => [Fin.ofNat (bitsValue last)]

/-- Read an `n`-bit number, least significant bit first. -/
def readBits : Nat → Bits → Option (Nat × Bits)
  | 0, bits => some (0, bits)
  | _ + 1, [] => none
  | n + 1, b :: rest => (readBits n rest).map fun r => (b.toNat + 2 * r.1, r.2)

/-- The symbols of a canonical Huffman code that have the given code length, in
increasing order; `lengths` lists the code length of every symbol. -/
def symbolsOfLength (lengths : List Nat) (len : Nat) : List Nat :=
  (lengths.enum.filter fun p => p.2 == len).map Prod.fst

/-- Decode one symbol of the canonical Huffman code with the given code lengths (RFC 1951,
section 3.2.2), reading the code bit by bit, most significant first. `len` is the length
reached with the next bit, `code` twice the value read so far, and `first` the first code
of length `len`. -/
def decodeSymbol (lengths : List Nat) : Nat → Nat → Nat → Bits → Option (Nat × Bits)
  | _, _, _, [] => none
  | len, code, first, b :: rest =>
    let code := code + b.toNat
    let syms := symbolsOfLength lengths len
    if code < first + syms.length then
      syms[code - first]?.map fun sym => (sym, rest)
    else if len ≥ 15 then none
    else decodeSymbol lengths (len + 1) (2 * code) (2 * (first + syms.length)) rest

/-- The code lengths of the fixed literal/length code (RFC 1951, section 3.2.6). -/
def fixedLitLengths : List Nat :=
  List.replicate 144 8 ++ List.replicate 112 9 ++ List.replicate 24 7 ++ List.replicate 8 8

/-- The code lengths of the fixed distance code. -/
def fixedDistLengths : List Nat :=
  List.replicate 32 5

/-- Base match length of the length symbols 257 to 285. -/
def lengthBase : List Nat :=
  [3, 4, 5, 6, 7, 8, 9, 10, 11, 13, 15, 17, 19, 23, 27, 31, 35, 43, 51, 59, 67, 83, 99, 115,
   131, 163, 195, 227, 258]

/-- Number of extra bits of the length symbols 257 to 285. -/
def lengthExtra : List Nat :=
  [0, 0, 0, 0, 0, 0, 0, 0, 1, 1, 1, 1, 2, 2, 2, 2, 3, 3, 3, 3, 4, 4, 4, 4, 5, 5, 5, 5, 0]

/-- Base distance of the distance symbols 0 to 29. -/
def distBase : List Nat :=
  [1, 2, 3, 4, 5, 7, 9, 13, 17, 25, 33, 49, 65, 97, 129, 193, 257, 385, 513, 769, 1025, 1537,
   2049, 3073, 4097, 6145, 8193, 12289, 16385, 24577]

/-- Number of extra bits of the distance symbols 0 to 29. -/
def distExtra : List Nat :=
  [0, 0, 0, 0, 1, 1, 2, 2, 3, 3, 4, 4, 5, 5, 6, 6, 7, 7, 8, 8, 9, 9, 10, 10, 11, 11, 12, 12,
   13, 13]

/-- Append `n` bytes copied from `dist` bytes before the end of the output; the copy may
run into the bytes it appends. -/
def copyMatch : Nat → Nat → List Byte → Option (List Byte)
  | 0, _, out => some out
  | n + 1, dist, out =>
    if dist = 0 ∨ out.length < dist then none
    else
      match out[out.length - dist]? with
      | some b => copyMatch n dist (out ++ [b])
      | none => none

/-- Decode what follows a length symbol (257 to 285): the extra bits of the length, the
distance symbol and its extra bits; then copy the match from the earlier output. -/
def inflateMatch (dist : List Nat) (sym : Nat) (bits : Bits) (out : List Byte) :
    Option (List Byte × Bits) :=
  match lengthBase[sym - 257]?, lengthExtra[sym - 257]? with
  | some lbase, some lextra =>
    match readBits lextra bits with
    | none => none
    | some (l, bits) =>
      match decodeSymbol dist 1 0 0 bits with
      | none => none
      | some (dsym, bits) =>
        match distBase[dsym]?, distExtra[dsym]? with
        | some dbase, some dextra =>
          match readBits dextra bits with
          | none => none
          | some (d, bits) => (copyMatch (lbase + l) (dbase + d) out).map fun out => (out, bits)
        | _, _ => none
  | _, _ => none

/-- What one symbol of a compressed block does: the output and the bits left after it,
and whether the symbol ended the block. A literal is appended to the output, the
end-of-block symbol changes nothing, a length symbol copies earlier output. -/
def inflateSymbol (lit dist : List Nat) (bits : Bits) (out : List Byte) :
    Option (Bool × List Byte × Bits) :=
  match decodeSymbol lit 1 0 0 bits with
  | none => none
  | some (sym, bits) =>
    if sym < 256 then some (false, out ++ [Fin.ofNat sym], bits)
    else if sym = 256 then some (true, out, bits)
    else (inflateMatch dist sym bits out).map fun r => (false, r)

/-- Decode the symbols of a compressed block up to its end-of-block symbol. The fuel
bounds the number of symbols. -/
def inflateSymbols (lit dist : List Nat) : Nat → Bits → List Byte → Option (List Byte × Bits)
  | 0, _, _ => none
  | fuel + 1, bits, out =>
    match inflateSymbol lit dist bits out with
    | none => none
    | some (true, r) => some r
    | some (false, out, bits) => inflateSymbols lit dist fuel bits out

/-- A stored block: skip to the next byte boundary, read the length and its complement,
and copy that many bytes. -/
def inflateStored (bits : Bits) (out : List Byte) : Option (List Byte × Bits) :=
  let bits := bits.drop (bits.length % 8)
  match readBits 16 bits with
  | none => none
  | some (len, bits) =>
    match readBits 16 bits with
    | none => none
    | some (nlen, bits) =>
      if len + nlen ≠ 65535 ∨ bits.length < 8 * len then none
      else some (out ++ bitsBytes (bits.take (8 * len)), bits.drop (8 * len))

/-- The order in which a dynamic block lists the lengths of the code-length code. -/
def codeLengthOrder : List Nat :=
  [16, 17, 18, 0, 8, 7, 9, 6, 10, 5, 11, 4, 12, 3, 13, 2, 14, 1, 15]

/-- Read `n` three-bit numbers. -/
def readTriples : Nat → Bits → Option (List Nat × Bits)
  | 0, bits => some ([], bits)
  | n + 1, bits =>
    match readBits 3 bits with
    | none => none
    | some (v, bits) => (readTriples n bits).map fun r => (v :: r.1, r.2)

/-- The code lengths of the nineteen symbols of the code-length code, from the numbers
read in the order of `codeLengthOrder`. -/
def codeLengthCode (vals : List Nat) : List Nat :=
  (List.range 19).map fun sym => vals.getD (codeLengthOrder.indexOf sym) 0

/-- Read one symbol of the code-length code and extend the code lengths read so far:
symbols 0 to 15 are lengths, 16 repeats the previous length, 17 and 18 repeat zero. -/
def readCodeLength (cl : List Nat) (acc : List Nat) (bits : Bits) : Option (List Nat × Bits) :=
  match decodeSymbol cl 1 0 0 bits with
  | none => none
  | some (sym, bits) =>
    if sym < 16 then some (acc ++ [sym], bits)
    else if sym = 16 then
      match acc.getLast?, readBits 2 bits with
      | some prev, some (r, bits) => some (acc ++ List.replicate (3 + r) prev, bits)
      | _, _ => none
    else if sym = 17 then
      (readBits 3 bits).map fun r => (acc ++ List.replicate (3 + r.1) 0, r.2)
    else
      (readBits 7 bits).map fun r => (acc ++ List.replicate (11 + r.1) 0, r.2)

/-- Read exactly `total` code lengths written with the code-length code. The fuel bounds
the number of symbols. -/
def readCodeLengths (cl : List Nat) (total : Nat) :
    Nat → List Nat → Bits → Option (List Nat × Bits)
  | 0, _, _ => none
  | fuel + 1, acc, bits =>
    if total < acc.length then none
    else if acc.length = total then some (acc, bits)
    else
      match readCodeLength cl acc bits with
      | none => none
      | some (acc, bits) => readCodeLengths cl total fuel acc bits

/-- A block with dynamic Huffman codes: read the two codes, then the symbols. -/
def inflateDynamic (bits : Bits) (out : List Byte) : Option (List Byte × Bits) :=
  match readBits 5 bits with
  | none => none
  | some (hlit, bits) =>
    match readBits 5 bits with
    | none => none
    | some (hdist, bits) =>
      match readBits 4 bits with
      | none => none
      | some (hclen, bits) =>
        if 286 < hlit + 257 ∨ 30 < hdist + 1 then none
        else
          match readTriples (hclen + 4) bits with
          | none => none
          | some (vals, bits) =>
            match readCodeLengths (codeLengthCode vals) (hlit + 257 + (hdist + 1))
                (bits.length + 1) [] bits with
            | none => none
            | some (lens, bits) =>
              inflateSymbols (lens.take (hlit + 257)) (lens.drop (hlit + 257))
                bits.length bits out

/-- Decode the body of one block, of the type given by the two bits that follow the
final-block bit: stored, fixed Huffman codes, dynamic Huffman codes; the fourth type is
an error. -/
def inflateBlock (t0 t1 : Bool) (bits : Bits) (out : List Byte) : Option (List Byte × Bits) :=
  match t0, t1 with
  | false, false => inflateStored bits out
  | true, false => inflateSymbols fixedLitLengths fixedDistLengths bits.length bits out
  | false, true => inflateDynamic bits out
  | true, true => none

/-- Decode the blocks of a DEFLATE stream up to and including the final one; the result
is the output and the bits that follow the final block. The fuel bounds the number of
blocks. -/
def inflateBlocks : Nat → Bits → List Byte → Option (List Byte × Bits)
  | fuel + 1, bfinal :: t0 :: t1 :: bits, out =>
    match inflateBlock t0 t1 bits out with
    | none => none
    | some (out, bits) => if bfinal then some (out, bits) else inflateBlocks fuel bits out
  | _, _, _ => none

/-- Decompress the DEFLATE stream (RFC 1951) that starts the given bytes: the data and the
bytes that follow the stream, or `none` when the bytes do not start with a stream. -/
def inflate (src : List Byte) : Option (List Byte × List Byte) :=
  let bits := bytesBits src
  (inflateBlocks bits.length bits []).map fun r => (r.1, bitsBytes (r.2.drop (r.2.length % 8)))

/-- One bit of the CRC-32 computation, polynomial `0xedb88320` (reflected). -/
def crc32Shift (c : Nat) : Nat :=
  if c % 2 = 1 then (c / 2) ^^^ 0xedb88320 else c / 2

/-- The CRC-32 register after one more byte. -/
def crc32Update (crc : Nat) (b : Byte) : Nat :=
  crc32Shift^[8] (crc ^^^ b.val)

/-- Go's `crc32.ChecksumIEEE`. -/
def crc32 (p : List Byte) : Nat :=
  (p.foldl crc32Update 0xffffffff ^^^ 0xffffffff) % 2 ^ 32

/-- Go's `binary.LittleEndian.PutUint32`: the four bytes of a 32-bit number. -/
def putUint32 (v : Nat) : List Byte :=
  [Fin.ofNat v, Fin.ofNat (v / 2 ^ 8), Fin.ofNat (v / 2 ^ 16), Fin.ofNat (v / 2 ^ 24)]

/-- Go's `binary.LittleEndian.Uint32`. -/
def getUint32 (b0 b1 b2 b3 : Byte) : Nat :=
  b0.val + 2 ^ 8 * b1.val + 2 ^ 16 * b2.val + 2 ^ 24 * b3.val

/-- The header written by a `gzip.Writer` with a zero `Header` and the default
compression level: magic, method 8 (deflate), no flags, no modification time, no extra
flags, operating system 255 (unknown). -/
def gzipHeader : List Byte :=
  [0x1f, 0x8b, 8, 0, 0, 0, 0, 0, 0, 0xff]

/-- What a `gzip.Writer` has written after `Write(p)` and `Close()`: the header, the
DEFLATE stream of the data, its CRC-32 and its length modulo `2^32`. The DEFLATE
compressor (`compress/flate` at the default level) is the argument `compress`. -/
def gzipWrite (compress : List Byte → List Byte) (p : List Byte) : List Byte :=
  gzipHeader ++ compress p ++ putUint32 (crc32 p) ++ putUint32 (p.length % 2 ^ 32)

/-- Decompress a gzip file (RFC 1952) of one member without optional header fields:
check the header, inflate the stream, and check the CRC-32 and the length that follow. -/
def gunzip (src : List Byte) : Option (List Byte) :=
  match src with
  | id1 :: id2 :: cm :: flg :: _ :: _ :: _ :: _ :: _ :: _ :: body =>
    if id1.val = 0x1f ∧ id2.val = 0x8b ∧ cm.val = 8 ∧ flg.val = 0 then
      match inflate body with
      | some (out, [c0, c1, c2, c3, s0, s1, s2, s3]) =>
        if getUint32 c0 c1 c2 c3 = crc32 out ∧ getUint32 s0 s1 s2 s3 = out.length % 2 ^ 32 then
          some out
        else none
      | _ => none
    else none
  | _ => none

/-- The fixed Huffman code of a literal byte, most significant bit first: eight bits
from `00110000` for the bytes below 144, nine bits from `110010000` for the others. -/
def fixedLiteralCode (b : Byte) : Bits :=
  if b.val < 144 then (natBits 8 (48 + b.val)).reverse
  else (natBits 9 (400 + (b.val - 144))).reverse

/-- The fixed Huffman code of the end-of-block symbol: seven zero bits. -/
def endOfBlockCode : Bits :=
  List.replicate 7 false

/-- Fill a stream of bits up to the next byte boundary with zero bits. -/
def padToByte (bits : Bits) : Bits :=
  bits ++ List.replicate ((8 - bits.length % 8) % 8) false

/-- A DEFLATE compressor that finds no repetition: data that is not empty goes as literals
into one block with the fixed Huffman codes, and the stream ends, as every stream
written by `compress/flate` does on `Close`, with an empty final stored block. This is
byte for byte what `compress/flate` writes at its default level for a short text without
a repeated four-byte sequence, such as the one of `TestConfigDriveMayBeFile`. -/
def deflateLiterals (p : List Byte) : List Byte :=
  let block : Bits :=
    if p = [] then [] else [false, true, false] ++ p.flatMap fixedLiteralCode ++ endOfBlockCode
  bitsBytes (padToByte (block ++ [true, false, false]) ++ natBits 16 0 ++ natBits 16 65535)


/-! ### Reference streams -/

/-- A gzip file written by zlib at its default level for a text with repetitions: a block
with the fixed Huffman codes and length/distance pairs. -/
def zlibRepetitions : List Byte :=
  [31, 139, 8, 0, 0, 0, 0, 0, 0, 3, 75, 76, 74, 78, 68, 69, 10, 25, 169, 57, 57, 249, 152,
   36, 0, 194, 243, 1, 133, 42, 0, 0, 0]

/-- A gzip file written by zlib at its default level for a longer text: a block with
dynamic Huffman codes and length/distance pairs. -/
def zlibDynamic : List Byte :=
  [31, 139, 8, 0, 0, 0, 0, 0, 0, 3, 197, 141, 209, 13, 3, 49, 8, 197, 86, 121, 3, 84, 221,
   137, 6, 116, 122, 18, 36, 119, 1, 246, 111, 164, 14, 209, 111, 203, 182, 175, 109, 1, 222,
   217, 1, 93, 190, 54, 146, 5, 9, 171, 23, 198, 154, 105, 163, 172, 122, 67, 148, 55, 115,
   112, 94, 48, 231, 129, 105, 122, 4, 24, 59, 99, 41, 202, 226, 62, 50, 231, 160, 82, 123,
   22, 186, 224, 242, 57, 121, 88, 253, 210, 134, 144, 107, 10, 196, 249, 180, 188, 225, 127,
   124, 127, 1, 41, 137, 217, 16, 248, 0, 0, 0]
/-! ## Files, the ISO tool and config drives (`nodes/util.go`) -/

/-- The outside world as `util.go` meets it, over states `σ` of the host: reading a file
(`ioutil.ReadFile`), creating a temporary file (`ioutil.TempFile`, which answers with the
name of the file) and running a command to its end (`exec.Command(...).Run()`). -/
structure Host (σ : Type) where
  ReadFile : σ → String → Except GoError (List Byte)
  TempFile : σ → String → String → Except GoError String × σ
  Run : σ → String → List String → Option GoError × σ

/-- The function `nodes.GzipFile`: the file read and written through a `gzip.Writer` into a buffer.
The compressor behind `gzip.NewWriter` is the argument `compress`; writing to a buffer
does not fail, so the only error is the one of reading the file. -/
def GzipFile {σ : Type} (compress : List Byte → List Byte) (host : Host σ) (s : σ)
    (path : String) : Except GoError (List Byte) :=
  match host.ReadFile s path with
  | .error err => .error err
  | .ok contents => .ok (gzipWrite compress contents)

/-- The arguments `PackDirectoryAsISO` passes to `mkisofs`. -/
def mkisofsArgs (iso path : String) : List String :=
  ["-o", iso, "-ldots", "-allow-lowercase", "-allow-multidot", "-l", "-publisher",
   "gophercloud", "-quiet", "-J", "-r", "-V", "config-2", path]

/-- The function `nodes.PackDirectoryAsISO`: a temporary file is created, `mkisofs` is run to write
the image of the directory into it, and the file is gzipped. The result comes with the
state of the host the call leaves behind. -/
def PackDirectoryAsISO {σ : Type} (compress : List Byte → List Byte) (host : Host σ) (s : σ)
    (path : String) : Except GoError (List Byte) × σ :=
  match host.TempFile s "" "gophercloud-iso" with
  | (.error err, s1) => (.error err, s1)
  | (.ok iso, s1) =>
    match host.Run s1 "mkisofs" (mkisofsArgs iso path) with
    | (some err, s2) => (.error ("error creating configdrive iso: " ++ err), s2)
    | (none, s2) => (GzipFile compress host s2 iso, s2)

/-- Modelled from the spec: `ConfigDrivePath.ToConfigDrive` is not among the source files
(only its test is); by the spec a config drive given as a path fails when the file
cannot be read and otherwise is the base64 encoding of the gzip-compressed contents of
the file. -/
def ConfigDrivePath.ToConfigDrive {σ : Type} (compress : List Byte → List Byte)
    (host : Host σ) (s : σ) (configDrivePath : String) : Except GoError String :=
  match GzipFile compress host s configDrivePath with
  | .error err => .error err
  | .ok buf => .ok (EncodeToString buf)

/-- Modelled from the spec: `ConfigDriveValue.ToConfigDrive` is not among the source
files (only its test is); by the spec a config drive given as a literal value is
returned unchanged, with no encoding applied. -/
def ConfigDriveValue.ToConfigDrive (configDriveValue : String) : Except GoError String :=
  .ok configDriveValue

/-- A host for the examples: states count the commands run. The file `/tmp/config-drive`
holds the text of `TestConfigDriveMayBeFile`; the file `/tmp/gophercloud-iso1` holds two
bytes once a command has run; there is no other file. Every command fails with
`exit status 1` unless its last argument is `/srv/config`. -/
def exampleHost : Host Nat where
  ReadFile := fun s name =>
    if name = "/tmp/config-drive" then
      .ok (stringBytes "The quick brown fox jumped over the lazy dog.")
    else if name = "/tmp/gophercloud-iso1" ∧ 0 < s then .ok [67, 68]
    else .error ("open " ++ name ++ ": no such file or directory")
  TempFile := fun s _ pattern => (.ok ("/tmp/" ++ pattern ++ "1"), s)
  Run := fun s _ args =>
    if args.getLast? = some "/srv/config" then (none, s + 1) else (some "exit status 1", s + 1)

end Gophercloud

/-! # Properties -/

namespace Gophercloud

/-! ## Helper lemmas on strings and query values -/

theorem intercalate_go_data (sep : String) (l : List String) (acc : String) :
    (String.intercalate.go acc sep l).data
      = acc.data ++ (l.flatMap fun a => sep.data ++ a.data) := by
  induction l generalizing acc with
  | nil => simp [String.intercalate.go]
  | cons a as ih =>
    simp [String.intercalate.go, ih, String.data_append, List.append_assoc]

theorem intercalate_cons_data (sep a : String) (as : List String) :
    (sep.intercalate (a :: as)).data
      = a.data ++ (as.flatMap fun b => sep.data ++ b.data) := by
  simp [String.intercalate, intercalate_go_data]

theorem QueryEscape_of_needsNoEscape (s : String) (h : needsNoEscape s) :
    QueryEscape s = s := by
  have key : ∀ l : List Char, (∀ c ∈ l, isUnreserved c = true) → l.flatMap escapeChar = l := by
    intro l
    induction l with
    | nil => intro _; rfl
    | cons c cs ih =>
      intro hl
      have hc : isUnreserved c = true := hl c (List.mem_cons_self _ _)
      have hcs : ∀ d ∈ cs, isUnreserved d = true := fun d hd => hl d (List.mem_cons_of_mem _ hd)
      simp [List.flatMap_cons, escapeChar, hc, ih hcs]
  unfold QueryEscape
  apply String.ext
  exact key s.data h

theorem foldl_Add_same_key (tag : String) (l acc : List String) :
    l.foldl (fun (v : Values) s => v.Add tag s) [(tag, acc)] = [(tag, acc ++ l)] := by
  induction l generalizing acc with
  | nil => simp
  | cons a as ih => simp [Values.Add, ih, List.append_assoc]

theorem foldl_Add_fresh (tag : String) (l : List String) (h : l ≠ []) :
    l.foldl (fun (v : Values) s => v.Add tag s) [] = [(tag, l)] := by
  cases l with
  | nil => exact absurd rfl h
  | cons a as => simp [Values.Add, foldl_Add_same_key]

/-! ## base64 -/

theorem base64Index_base64Char (n : Nat) (h : n < 64) : base64Index (base64Char n) = some n := by
  have key : ∀ m : Fin 64, base64Index (base64Char m.val) = some m.val := by decide
  exact key ⟨n, h⟩

theorem base64Char_ne_pad (n : Nat) (h : n < 64) : base64Char n ≠ '=' := by
  have key : ∀ m : Fin 64, base64Char m.val ≠ '=' := by decide
  exact key ⟨n, h⟩

theorem base64Decode_base64Encode (bs : List Byte) : base64Decode (base64Encode bs) = some bs := by
  induction bs using base64Encode.induct with
  | case1 a b c rest ih =>
    have ha := a.isLt
    have hb := b.isLt
    have hc := c.isLt
    have h4 : base64Char (c.val % 64) ≠ '=' := base64Char_ne_pad _ (by omega)
    simp only [base64Encode, base64Decode, h4, and_false, if_false]
    rw [base64Index_base64Char _ (by omega), base64Index_base64Char _ (by omega),
      base64Index_base64Char _ (by omega), base64Index_base64Char _ (by omega), ih]
    simp only [Option.bind_eq_bind, Option.some_bind, Option.some.injEq, List.cons.injEq, and_true]
    refine ⟨?_, ?_, ?_⟩ <;> apply Fin.ext <;> simp [Fin.ofNat] <;> omega
  | case2 a b =>
    have ha := a.isLt
    have hb := b.isLt
    have h3 : base64Char (b.val % 16 * 4) ≠ '=' := base64Char_ne_pad _ (by omega)
    simp only [base64Encode, base64Decode, h3, and_self, if_true, if_false]
    rw [base64Index_base64Char _ (by omega), base64Index_base64Char _ (by omega),
      base64Index_base64Char _ (by omega)]
    simp only [Option.bind_eq_bind, Option.some_bind, Option.some.injEq, List.cons.injEq, and_true]
    refine ⟨?_, ?_⟩ <;> apply Fin.ext <;> simp [Fin.ofNat] <;> omega
  | case3 a =>
    have ha := a.isLt
    simp only [base64Encode, base64Decode, and_self, if_true]
    rw [base64Index_base64Char _ (by omega), base64Index_base64Char _ (by omega)]
    simp only [Option.bind_eq_bind, Option.some_bind, Option.some.injEq, List.cons.injEq, and_true]
    apply Fin.ext; simp [Fin.ofNat]; omega
  | case4 => rfl

/-! ## Bits and bytes -/

theorem natBits_length (n v : Nat) : (natBits n v).length = n := by
  induction n generalizing v with
  | zero => rfl
  | succ n ih => simp [natBits, ih]

theorem bit_toNat (v : Nat) : (v % 2 == 1).toNat = v % 2 := by
  rcases Nat.mod_two_eq_zero_or_one v with h | h <;> simp [h]

theorem mod_two_pow_succ (v n : Nat) : v % 2 ^ (n + 1) = v % 2 + 2 * (v / 2 % 2 ^ n) := by
  rw [Nat.pow_succ', Nat.mod_mul]

theorem bitsValue_natBits (n v : Nat) : bitsValue (natBits n v) = v % 2 ^ n := by
  induction n generalizing v with
  | zero => simp [natBits, bitsValue, Nat.mod_one]
  | succ n ih =>
    simp only [natBits, bitsValue, ih, bit_toNat]
    rw [mod_two_pow_succ]

theorem readBits_natBits (n v : Nat) (rest : Bits) :
    readBits n (natBits n v ++ rest) = some (v % 2 ^ n, rest) := by
  induction n generalizing v with
  | zero => simp [natBits, readBits, Nat.mod_one]
  | succ n ih =>
    simp only [natBits, List.cons_append, readBits, List.append_eq, ih, Option.map_some',
      bit_toNat]
    rw [mod_two_pow_succ]

theorem natBits_eight (v : Nat) :
    natBits 8 v
      = [v % 2 == 1, v / 2 % 2 == 1, v / 2 / 2 % 2 == 1, v / 2 / 2 / 2 % 2 == 1,
         v / 2 / 2 / 2 / 2 % 2 == 1, v / 2 / 2 / 2 / 2 / 2 % 2 == 1,
         v / 2 / 2 / 2 / 2 / 2 / 2 % 2 == 1, v / 2 / 2 / 2 / 2 / 2 / 2 / 2 % 2 == 1] :=
  rfl

theorem bytesBits_cons (b : Byte) (bs : List Byte) :
    bytesBits (b :: bs) = natBits 8 b.val ++ bytesBits bs :=
  rfl

theorem bytesBits_append (a b : List Byte) : bytesBits (a ++ b) = bytesBits a ++ bytesBits b := by
  simp [bytesBits]

theorem bytesBits_length (a : List Byte) : (bytesBits a).length = 8 * a.length := by
  induction a with
  | nil => rfl
  | cons b bs ih =>
    rw [bytesBits_cons, List.length_append, natBits_length, ih, List.length_cons]
    omega

theorem byte_of_bitsValue_natBits (b : Byte) :
    (Fin.ofNat (bitsValue (natBits 8 b.val)) : Byte) = b := by
  apply Fin.ext
  have hb := b.isLt
  rw [bitsValue_natBits]
  simp only [Fin.ofNat, Nat.reducePow, Nat.reduceAdd]
  omega

theorem bitsBytes_bytesBits (bs : List Byte) : bitsBytes (bytesBits bs) = bs := by
  induction bs with
  | nil => rfl
  | cons b bs ih =>
    have h := byte_of_bitsValue_natBits b
    rw [natBits_eight] at h
    rw [bytesBits_cons, natBits_eight]
    simp only [List.cons_append, List.nil_append, bitsBytes, List.append_eq, h, ih]

theorem natBits_of_bitsValue_eight :
    ∀ b0 b1 b2 b3 b4 b5 b6 b7 : Bool,
      natBits 8 (Fin.ofNat (bitsValue [b0, b1, b2, b3, b4, b5, b6, b7]) : Byte).val
        = [b0, b1, b2, b3, b4, b5, b6, b7] := by
  decide

theorem bytesBits_bitsBytes (n : Nat) :
    ∀ bits : Bits, bits.length = 8 * n → bytesBits (bitsBytes bits) = bits := by
  induction n with
  | zero =>
    intro bits h
    have : bits = [] := List.length_eq_zero.mp (by simpa using h)
    subst this
    rfl
  | succ n ih =>
    intro bits h
    match bits, h with
    | b0 :: b1 :: b2 :: b3 :: b4 :: b5 :: b6 :: b7 :: rest, h =>
      have hrest : rest.length = 8 * n := by
        simp only [List.length_cons] at h
        omega
      rw [bitsBytes, bytesBits_cons, natBits_of_bitsValue_eight, ih rest hrest]
      rfl
    | [], h => exact absurd h (by simp only [List.length_cons, List.length_nil]; omega)
    | [_], h => exact absurd h (by simp only [List.length_cons, List.length_nil]; omega)
    | [_, _], h => exact absurd h (by simp only [List.length_cons, List.length_nil]; omega)
    | [_, _, _], h => exact absurd h (by simp only [List.length_cons, List.length_nil]; omega)
    | [_, _, _, _], h => exact absurd h (by simp only [List.length_cons, List.length_nil]; omega)
    | [_, _, _, _, _], h => exact absurd h (by simp only [List.length_cons, List.length_nil]; omega)
    | [_, _, _, _, _, _], h => exact absurd h (by simp only [List.length_cons, List.length_nil]; omega)
    | [_, _, _, _, _, _, _], h => exact absurd h (by simp only [List.length_cons, List.length_nil]; omega)

theorem padToByte_length (bits : Bits) : (padToByte bits).length % 8 = 0 := by
  simp only [padToByte, List.length_append, List.length_replicate]
  omega

/-! ## DEFLATE: decoding what the literal compressor writes -/

theorem decodeSymbol_append (lengths : List Nat) (c rest r : Bits) (sym : Nat) :
    ∀ len code first : Nat,
      decodeSymbol lengths len code first c = some (sym, r) →
      decodeSymbol lengths len code first (c ++ rest) = some (sym, r ++ rest) := by
  induction c with
  | nil => intro len code first h; simp [decodeSymbol] at h
  | cons b bs ih =>
    intro len code first h
    simp only [List.cons_append, decodeSymbol] at h ⊢
    split at h
    · rename_i hlt
      rw [if_pos hlt]
      cases hget : (symbolsOfLength lengths len)[code + b.toNat - first]? with
      | none => simp [hget] at h
      | some v =>
        simp only [hget, Option.map_some', Option.some.injEq, Prod.mk.injEq] at h ⊢
        exact ⟨h.1, by rw [h.2]; rfl⟩
    · rename_i hlt
      rw [if_neg hlt]
      split at h
      · exact absurd h (by simp)
      · rename_i hlen
        rw [if_neg hlen]
        exact ih _ _ _ h

theorem fixedLiteralCode_decodes_check :
    ((List.range 256).all fun n =>
      decodeSymbol fixedLitLengths 1 0 0 (fixedLiteralCode (Fin.ofNat n)) == some (n, [])) = true := by
  decide!

theorem decodeSymbol_fixedLiteralCode (b : Byte) :
    decodeSymbol fixedLitLengths 1 0 0 (fixedLiteralCode b) = some (b.val, []) := by
  have h := List.all_eq_true.mp fixedLiteralCode_decodes_check b.val (List.mem_range.mpr b.isLt)
  have hb : (Fin.ofNat b.val : Byte) = b := by
    apply Fin.ext; simp [Fin.ofNat]
  rw [hb] at h
  exact eq_of_beq h

theorem decodeSymbol_endOfBlockCode :
    decodeSymbol fixedLitLengths 1 0 0 endOfBlockCode = some (256, []) := by
  decide!

theorem inflateSymbols_literal (lit dist : List Nat) (fuel sym : Nat) (bits rest : Bits)
    (out : List Byte) (h : decodeSymbol lit 1 0 0 bits = some (sym, rest)) (hs : sym < 256) :
    inflateSymbols lit dist (fuel + 1) bits out
      = inflateSymbols lit dist fuel rest (out ++ [Fin.ofNat sym]) := by
  have hstep : inflateSymbol lit dist bits out = some (false, out ++ [Fin.ofNat sym], rest) := by
    simp [inflateSymbol, h, hs]
  rw [inflateSymbols, hstep]

theorem inflateSymbols_endOfBlock (lit dist : List Nat) (fuel : Nat) (bits rest : Bits)
    (out : List Byte) (h : decodeSymbol lit 1 0 0 bits = some (256, rest)) :
    inflateSymbols lit dist (fuel + 1) bits out = some (out, rest) := by
  have hstep : inflateSymbol lit dist bits out = some (true, out, rest) := by
    simp [inflateSymbol, h]
  rw [inflateSymbols, hstep]

theorem inflateSymbols_literals (p : List Byte) :
    ∀ (fuel : Nat) (out : List Byte) (rest : Bits), p.length < fuel →
      inflateSymbols fixedLitLengths fixedDistLengths fuel
          (p.flatMap fixedLiteralCode ++ endOfBlockCode ++ rest) out
        = some (out ++ p, rest) := by
  induction p with
  | nil =>
    intro fuel out rest hfuel
    obtain ⟨f, rfl⟩ : ∃ f, fuel = f + 1 := ⟨fuel - 1, by simp at hfuel; omega⟩
    have hdec := decodeSymbol_append fixedLitLengths endOfBlockCode rest [] 256 1 0 0
      decodeSymbol_endOfBlockCode
    rw [List.flatMap_nil, List.nil_append,
      inflateSymbols_endOfBlock _ _ _ _ _ _ hdec, List.append_nil, List.nil_append]
  | cons b bs ih =>
    intro fuel out rest hfuel
    obtain ⟨f, rfl⟩ : ∃ f, fuel = f + 1 := ⟨fuel - 1, by simp at hfuel; omega⟩
    have hf : bs.length < f := by simp at hfuel; omega
    have hdec := decodeSymbol_append fixedLitLengths (fixedLiteralCode b)
      (bs.flatMap fixedLiteralCode ++ endOfBlockCode ++ rest) [] b.val 1 0 0
      (decodeSymbol_fixedLiteralCode b)
    have hb : (Fin.ofNat b.val : Byte) = b := by
      apply Fin.ext; simp [Fin.ofNat]
    rw [List.nil_append] at hdec
    rw [List.flatMap_cons, List.append_assoc, List.append_assoc,
      ← List.append_assoc (bs.flatMap fixedLiteralCode),
      inflateSymbols_literal _ _ _ _ _ _ _ hdec b.isLt, hb, ih f (out ++ [b]) rest hf,
      List.append_assoc, List.singleton_append]

/-! ## The literal compressor writes a valid DEFLATE stream -/

theorem inflateStored_empty (k : Nat) (hk : k < 8) (tail : Bits) (htail : tail.length % 8 = 0)
    (out : List Byte) :
    inflateStored (List.replicate k false ++ (natBits 16 0 ++ (natBits 16 65535 ++ tail))) out
      = some (out, tail) := by
  have hlen : (List.replicate k false ++ (natBits 16 0 ++ (natBits 16 65535 ++ tail))).length % 8
      = k := by
    simp only [List.length_append, List.length_replicate, natBits_length]
    omega
  have hdrop : (List.replicate k false ++ (natBits 16 0 ++ (natBits 16 65535 ++ tail))).drop k
      = natBits 16 0 ++ (natBits 16 65535 ++ tail) :=
    List.drop_left' (List.length_replicate k false)
  unfold inflateStored
  simp only [hlen, hdrop, readBits_natBits]
  simp [bitsBytes]

theorem inflateBlocks_final_stored (fuel k : Nat) (hk : k < 8) (tail : Bits)
    (htail : tail.length % 8 = 0) (out : List Byte) :
    inflateBlocks (fuel + 1)
        (true :: false :: false ::
          (List.replicate k false ++ (natBits 16 0 ++ (natBits 16 65535 ++ tail)))) out
      = some (out, tail) := by
  rw [inflateBlocks]
  simp only [inflateBlock, inflateStored_empty k hk tail htail out, if_true]

theorem fixedLiteralCode_length_pos (b : Byte) : 1 ≤ (fixedLiteralCode b).length := by
  unfold fixedLiteralCode
  split <;> simp [natBits_length]

theorem literals_length_le (p : List Byte) : p.length ≤ (p.flatMap fixedLiteralCode).length := by
  induction p with
  | nil => simp
  | cons b bs ih =>
    have := fixedLiteralCode_length_pos b
    simp only [List.flatMap_cons, List.length_append, List.length_cons]
    omega

theorem inflateBlocks_fixed_literals (fuel : Nat) (p : List Byte) (tail : Bits)
    (out : List Byte) :
    inflateBlocks (fuel + 1)
        (false :: true :: false :: (p.flatMap fixedLiteralCode ++ endOfBlockCode ++ tail)) out
      = inflateBlocks fuel tail (out ++ p) := by
  have hfuel : p.length < (p.flatMap fixedLiteralCode ++ endOfBlockCode ++ tail).length := by
    have := literals_length_le p
    simp only [List.length_append, endOfBlockCode, List.length_replicate]
    omega
  rw [inflateBlocks]
  simp only [inflateBlock, inflateSymbols_literals p _ out tail hfuel]
  simp

/-- The bits of the stream written by `deflateLiterals`, before packing into bytes. -/
theorem deflateLiterals_bits (p rest : List Byte) :
    bytesBits (deflateLiterals p ++ rest)
      = padToByte ((if p = [] then [] else
            [false, true, false] ++ p.flatMap fixedLiteralCode ++ endOfBlockCode)
          ++ [true, false, false]) ++ natBits 16 0 ++ natBits 16 65535 ++ bytesBits rest := by
  have hlen : ∀ bits : Bits, (padToByte bits ++ natBits 16 0 ++ natBits 16 65535).length
      = 8 * ((padToByte bits).length / 8 + 4) := by
    intro bits
    have := padToByte_length bits
    simp only [List.length_append, natBits_length]
    omega
  rw [bytesBits_append]
  unfold deflateLiterals
  simp only []
  rw [bytesBits_bitsBytes _ _ (hlen _)]

theorem inflate_deflateLiterals (p rest : List Byte) :
    inflate (deflateLiterals p ++ rest) = some (p, rest) := by
  have htail : (bytesBits rest).length % 8 = 0 := by
    rw [bytesBits_length]; omega
  have hblocks : ∀ fuel, 2 ≤ fuel →
      inflateBlocks fuel (bytesBits (deflateLiterals p ++ rest)) [] = some (p, bytesBits rest) := by
    intro fuel hfuel
    obtain ⟨f, rfl⟩ : ∃ f, fuel = f + 1 + 1 := ⟨fuel - 2, by omega⟩
    rw [deflateLiterals_bits]
    by_cases hp : p = []
    · subst hp
      have hk : (8 - ([] ++ [true, false, false] : Bits).length % 8) % 8 < 8 :=
        Nat.mod_lt _ (by decide)
      have := inflateBlocks_final_stored (f + 1) _ hk (bytesBits rest) htail []
      simpa [padToByte, List.append_assoc] using this
    · have hk : (8 - ([false, true, false] ++ p.flatMap fixedLiteralCode ++ endOfBlockCode
          ++ [true, false, false] : Bits).length % 8) % 8 < 8 := Nat.mod_lt _ (by decide)
      have h1 := inflateBlocks_fixed_literals (f + 1) p
        (true :: false :: false ::
          (List.replicate ((8 - ([false, true, false] ++ p.flatMap fixedLiteralCode
              ++ endOfBlockCode ++ [true, false, false] : Bits).length % 8) % 8) false
            ++ (natBits 16 0 ++ (natBits 16 65535 ++ bytesBits rest)))) []
      have h2 := inflateBlocks_final_stored f _ hk (bytesBits rest) htail ([] ++ p)
      rw [h2] at h1
      simp only [hp, if_false, padToByte]
      simpa [List.append_assoc] using h1
  have hlen : 2 ≤ (bytesBits (deflateLiterals p ++ rest)).length := by
    rw [deflateLiterals_bits]
    simp only [List.length_append, natBits_length]
    omega
  unfold inflate
  simp only [hblocks _ hlen, Option.map_some', htail, List.drop_zero, bitsBytes_bytesBits]

/-! ## gzip -/

theorem getUint32_putUint32 (v : Nat) :
    ∀ b0 b1 b2 b3 : Byte, putUint32 v = [b0, b1, b2, b3] →
      getUint32 b0 b1 b2 b3 = v % 2 ^ 32 := by
  intro b0 b1 b2 b3 h
  simp only [putUint32, List.cons.injEq, and_true] at h
  obtain ⟨h0, h1, h2, h3⟩ := h
  subst h0 h1 h2 h3
  simp only [getUint32, Fin.ofNat, Nat.reducePow, Nat.reduceAdd]
  omega

theorem crc32_lt (p : List Byte) : crc32 p % 2 ^ 32 = crc32 p := by
  unfold crc32
  exact Nat.mod_mod _ _

theorem gunzip_gzipWrite (compress : List Byte → List Byte)
    (hvalid : ∀ data rest : List Byte, inflate (compress data ++ rest) = some (data, rest))
    (p : List Byte) : gunzip (gzipWrite compress p) = some p := by
  have hbody := hvalid p (putUint32 (crc32 p) ++ putUint32 (p.length % 2 ^ 32))
  have hcrc := getUint32_putUint32 (crc32 p)
  have hsize := getUint32_putUint32 (p.length % 2 ^ 32)
  rw [crc32_lt] at hcrc
  rw [Nat.mod_mod] at hsize
  simp only [putUint32] at hcrc hsize
  simp only [putUint32, List.cons_append, List.nil_append] at hbody
  simp only [gzipWrite, gzipHeader, putUint32, List.cons_append, List.nil_append,
    List.append_assoc, gunzip]
  rw [hbody]
  have e1 := hcrc _ _ _ _ rfl
  have e2 := hsize _ _ _ _ rfl
  have hmagic : (31 : Byte).val = 31 ∧ (139 : Byte).val = 139 ∧ (8 : Byte).val = 8 ∧
      (0 : Byte).val = 0 := by decide
  rw [if_pos hmagic]
  simp only [e1, e2, and_self, if_true]

/-! ## The decoder on streams written by zlib -/

theorem gunzip_zlibRepetitions :
    gunzip zlibRepetitions = some (stringBytes "abcabcabcabcabcabc hello hello hello hello") := by
  decide!

theorem gunzip_zlibDynamic :
    gunzip zlibDynamic
      = some (stringBytes
          ("lorem ipsum dolor sit amet, consectetur adipiscing elit, sed do eiusmod tempor " ++
           "incididunt ut labore et dolore magna aliqua. " ++
           "lorem ipsum dolor sit amet, consectetur adipiscing elit, sed do eiusmod tempor " ++
           "incididunt ut labore et dolore magna aliqua. ")) := by
  decide!

/-! ## The test image of `TestConfigDriveMayBeFile` -/

theorem encoded_test_image :
    EncodeToString (gzipWrite deflateLiterals
        (stringBytes "The quick brown fox jumped over the lazy dog."))
      = "H4sIAAAAAAAA/wrJSFUoLM1MzlZIKsovz1NIy69QyCrNLUhNUcgvSy1SKMlIVchJrKpUSMlP1wMEAAD//0JGo4ItAAAA" := by
  decide!

/-! # The claims -/

/-! ## Listing nodes -/

/-- C1: for every `ListOpts` whose `Fields` is non-empty, whatever the other filters,
`ToNodeListDetailQuery` returns the empty query string together with the error "fields
is not a valid option when getting a detailed listing of nodes". -/
theorem detail_query_rejects_fields (opts : ListOpts) (h : opts.Fields ≠ []) :
    opts.ToNodeListDetailQuery
      = ("", some "fields is not a valid option when getting a detailed listing of nodes") := by
  have hlen : opts.Fields.length > 0 := List.length_pos.mpr h
  simp [ListOpts.ToNodeListDetailQuery, hlen]

/-- C1 at the options of `TestListOpts`, `Fields = ["name", "uuid"]`. -/
theorem detail_query_rejects_fields_witness :
    ({ Fields := ["name", "uuid"] } : ListOpts).Fields ≠ [] ∧
    ({ Fields := ["name", "uuid"] } : ListOpts).ToNodeListDetailQuery
      = ("", some "fields is not a valid option when getting a detailed listing of nodes") :=
  ⟨by decide, detail_query_rejects_fields { Fields := ["name", "uuid"] } (by decide)⟩

/-- C2: for options in which `Fields = [f1, ..., fn]`, `n ≥ 1`, names that need no URL
escaping, is the only non-zero field, `ToNodeListQuery` returns no error and the query
`?fields=f1&fields=f2&...&fields=fn`: one `fields=<name>` per name, in the order of the
list. -/
theorem list_query_repeats_fields (fs : List String) (hne : fs ≠ [])
    (hesc : ∀ f ∈ fs, needsNoEscape f) :
    ({ Fields := fs } : ListOpts).ToNodeListQuery
      = ("?" ++ "&".intercalate (fs.map fun f => "fields=" ++ f), none) := by
  have hzero : (QueryValue.strs fs).isZero = false := by
    cases fs with
    | nil => exact absurd rfl hne
    | cons a as => rfl
  have hparams :
      (({ Fields := fs } : ListOpts).queryFields.foldl
        (fun (acc : Values) f => if f.2.isZero then acc else f.2.addTo acc f.1) [])
        = [("fields", fs)] := by
    simp [ListOpts.queryFields, QueryValue.isZero, QueryValue.addTo, foldl_Add_fresh _ _ hne]
    cases fs with
    | nil => exact absurd rfl hne
    | cons a as => simp
  have hkey : QueryEscape "fields" = "fields" := by decide
  have hpieces :
      (fs.map fun value => QueryEscape "fields" ++ "=" ++ QueryEscape value)
        = fs.map fun f => "fields=" ++ f := by
    apply List.map_congr_left
    intro f hf
    rw [hkey, QueryEscape_of_needsNoEscape f (hesc f hf)]
    rfl
  have hencode : Values.Encode [("fields", fs)]
      = "&".intercalate (fs.map fun f => "fields=" ++ f) := by
    simp only [Values.Encode, sortByKey, insertByKey, List.flatMap_cons, List.flatMap_nil,
      List.append_nil]
    rw [hpieces]
  have hnonempty : "&".intercalate (fs.map fun f => "fields=" ++ f) ≠ "" := by
    cases fs with
    | nil => exact absurd rfl hne
    | cons a as =>
      intro hcontra
      have hdata := congrArg String.data hcontra
      rw [List.map_cons, intercalate_cons_data, String.data_append] at hdata
      simp at hdata
  simp only [ListOpts.ToNodeListQuery, BuildQueryString, hparams, hencode, URL.String]
  simp [hnonempty]

/-- C2 at the options of `TestListOpts`: `["name", "uuid"]` gives
`?fields=name&fields=uuid`. -/
theorem list_query_repeats_fields_witness :
    ["name", "uuid"] ≠ [] ∧ (∀ f ∈ ["name", "uuid"], needsNoEscape f) ∧
    ({ Fields := ["name", "uuid"] } : ListOpts).ToNodeListQuery
      = ("?fields=name&fields=uuid", none) :=
  ⟨by decide, by decide,
    list_query_repeats_fields ["name", "uuid"] (by decide) (by decide)⟩

/-! ## Updating a node -/

/-- C3: for every sequence of patches `[p1, ..., pn]` the body `Update` sends in its one
`PATCH` request has exactly `n` entries, the `i`-th being `pi.ToNodeUpdateMap()`; the
entry of an `UpdateOperation` maps `op`, `path` and `value` to its `Op`, `Path` and
`Value`; and the single operation `replace /driver new-driver` is written as
`[{"op":"replace","path":"/driver","value":"new-driver"}]`. -/
theorem update_body_keeps_patches (opts : UpdateOpts) (updateURL : ServiceClient → String → String)
    (client : ServiceClient) (id : String) (o : UpdateOperation) :
    Update (fun method url ro => (method, url, ro)) updateURL client id opts
        = ("PATCH", updateURL client id,
            { JSONBody := updateBody opts, OkCodes := [200] }) ∧
    (updateBody opts).length = opts.length ∧
    (∀ i : Nat, (updateBody opts)[i]? = opts[i]?.map fun p => p.ToNodeUpdateMap) ∧
    (o.asPatch.ToNodeUpdateMap.get? "op" = some (.str o.Op) ∧
      o.asPatch.ToNodeUpdateMap.get? "path" = some (.str o.Path) ∧
      o.asPatch.ToNodeUpdateMap.get? "value" = some (.str o.Value)) ∧
    bodyToJSON (updateBody
        [({ Op := ReplaceOp, Path := "/driver", Value := "new-driver" } : UpdateOperation).asPatch])
      = "[\x7b\"op\":\"replace\",\"path\":\"/driver\",\"value\":\"new-driver\"\x7d]" := by
  refine ⟨rfl, ?_, ?_, ⟨?_, ?_, ?_⟩, by decide⟩
  · simp [updateBody]
  · intro i
    simp [updateBody]
  · simp [UpdateOperation.asPatch, UpdateOperation.ToNodeUpdateMap, BodyMap.get?]
  · simp [UpdateOperation.asPatch, UpdateOperation.ToNodeUpdateMap, BodyMap.get?]
  · simp [UpdateOperation.asPatch, UpdateOperation.ToNodeUpdateMap, BodyMap.get?]

/-- C4 (the code at the failing input): for the remove operation on `/driver` with an
empty `Value`, the entry built by `ToNodeUpdateMap` still has the key `value`, holding
the empty string, and the body is written with `"value":""`. -/
theorem remove_operation_keeps_empty_value :
    (({ Op := RemoveOp, Path := "/driver", Value := "" } : UpdateOperation).ToNodeUpdateMap).keys
        = ["op", "path", "value"] ∧
    (({ Op := RemoveOp, Path := "/driver", Value := "" } : UpdateOperation).ToNodeUpdateMap).get?
        "value" = some (.str "") ∧
    bodyToJSON (updateBody
        [({ Op := RemoveOp, Path := "/driver", Value := "" } : UpdateOperation).asPatch])
      = "[\x7b\"op\":\"remove\",\"path\":\"/driver\",\"value\":\"\"\x7d]" := by
  decide

/-! ## The endpoint of a service without authentication -/

/-- C5 (the code at the failing input): for the endpoint
`http://ironic.example.com:8776/v1` the client returned by `NewBaremetalNoAuth` has the
endpoint `http://ironic.example.com:8776/v1/fake-token/`: the token is appended to the
normalised endpoint, which is therefore not the endpoint given with a trailing slash. -/
theorem noauth_endpoint_carries_token :
    NewBaremetalNoAuth { IronicEndpoint := "http://ironic.example.com:8776/v1" }
      = .ok { ProviderClient := some { TokenID := "fake-token" },
              Endpoint := "http://ironic.example.com:8776/v1/fake-token/" } ∧
    NormalizeURL "http://ironic.example.com:8776/v1" = "http://ironic.example.com:8776/v1/" ∧
    ("http://ironic.example.com:8776/v1/fake-token/" : String)
      ≠ "http://ironic.example.com:8776/v1/" :=
  ⟨by rfl, by decide, by decide⟩

/-- C6: `NewBaremetalNoAuth` fails exactly when the endpoint is empty, then with the
error "IronicEndpoint is required" and no client; for every other endpoint it returns a
client and no error, and the provider of that client carries the token `fake-token`. -/
theorem noauth_fails_iff_endpoint_empty (eo : EndpointOpts) :
    (NewBaremetalNoAuth eo = .error "IronicEndpoint is required" ↔ eo.IronicEndpoint = "") ∧
    ((∃ sc, NewBaremetalNoAuth eo = .ok sc ∧
        sc.ProviderClient = some { TokenID := "fake-token" }) ↔ eo.IronicEndpoint ≠ "") ∧
    ((∃ err, NewBaremetalNoAuth eo = .error err) ↔ eo.IronicEndpoint = "") := by
  by_cases h : eo.IronicEndpoint = ""
  · simp [NewBaremetalNoAuth, initClientOpts, h]
  · simp [NewBaremetalNoAuth, initClientOpts, h]

/-- C6 at the empty endpoint and at `http://ironic.example.com:8776/v1`. -/
theorem noauth_fails_iff_endpoint_empty_witness :
    NewBaremetalNoAuth { IronicEndpoint := "" } = .error "IronicEndpoint is required" ∧
    ∃ sc, NewBaremetalNoAuth { IronicEndpoint := "http://ironic.example.com:8776/v1" } = .ok sc ∧
      sc.ProviderClient = some { TokenID := "fake-token" } :=
  ⟨(noauth_fails_iff_endpoint_empty { IronicEndpoint := "" }).1.mpr rfl,
   (noauth_fails_iff_endpoint_empty
      { IronicEndpoint := "http://ironic.example.com:8776/v1" }).2.1.mpr (by decide)⟩

/-! ## Config drives -/

/-- C7: for every readable file with contents `b`, a config drive built from its path
(the file gzipped by `GzipFile`, the compressed bytes base64-encoded) is returned with
no error, and base64-decoding and then gzip-decompressing it gives `b` again; this holds
for every DEFLATE compressor behind the gzip writer that writes valid streams. For
`b = "The quick brown fox jumped over the lazy dog."`, compressed as literals in one
block of fixed Huffman codes, the result is the string of `TestConfigDriveMayBeFile`. -/
theorem configDrivePath_roundtrip {σ : Type} (compress : List Byte → List Byte)
    (hvalid : ∀ data rest : List Byte, inflate (compress data ++ rest) = some (data, rest))
    (host : Host σ) (s : σ) (path : String) (b : List Byte)
    (hread : host.ReadFile s path = .ok b) :
    (∃ r, ConfigDrivePath.ToConfigDrive compress host s path = .ok r ∧
      (DecodeString r).bind gunzip = some b) ∧
    (b = stringBytes "The quick brown fox jumped over the lazy dog." →
      ConfigDrivePath.ToConfigDrive deflateLiterals host s path
        = .ok "H4sIAAAAAAAA/wrJSFUoLM1MzlZIKsovz1NIy69QyCrNLUhNUcgvSy1SKMlIVchJrKpUSMlP1wMEAAD//0JGo4ItAAAA") := by
  constructor
  · refine ⟨EncodeToString (gzipWrite compress b), ?_, ?_⟩
    · simp [ConfigDrivePath.ToConfigDrive, GzipFile, hread]
    · simp only [DecodeString, EncodeToString, base64Decode_base64Encode, Option.some_bind]
      exact gunzip_gzipWrite compress hvalid b
  · intro hb
    subst hb
    simp only [ConfigDrivePath.ToConfigDrive, GzipFile, hread, encoded_test_image]

/-- C7 on the example host, with the literal compressor: the config drive of
`/tmp/config-drive` is the string of `TestConfigDriveMayBeFile`, and decoding and
decompressing that string gives the text back. -/
theorem configDrivePath_roundtrip_witness :
    ConfigDrivePath.ToConfigDrive deflateLiterals exampleHost 0 "/tmp/config-drive"
      = .ok "H4sIAAAAAAAA/wrJSFUoLM1MzlZIKsovz1NIy69QyCrNLUhNUcgvSy1SKMlIVchJrKpUSMlP1wMEAAD//0JGo4ItAAAA" ∧
    (DecodeString
        "H4sIAAAAAAAA/wrJSFUoLM1MzlZIKsovz1NIy69QyCrNLUhNUcgvSy1SKMlIVchJrKpUSMlP1wMEAAD//0JGo4ItAAAA").bind
      gunzip = some (stringBytes "The quick brown fox jumped over the lazy dog.") := by
  obtain ⟨⟨r, hr, hdec⟩, hlit⟩ :=
    configDrivePath_roundtrip deflateLiterals inflate_deflateLiterals exampleHost 0
      "/tmp/config-drive" (stringBytes "The quick brown fox jumped over the lazy dog.") rfl
  have hl := hlit rfl
  rw [hl] at hr
  injection hr with hr
  subst hr
  exact ⟨hl, hdec⟩

/-- C8: for every string `v`, a config drive given as the literal value `v` is `v`
itself, returned with no error and with no gzip or base64 encoding applied. -/
theorem configDriveValue_unchanged (v : String) :
    ConfigDriveValue.ToConfigDrive v = .ok v ∧
    ConfigDriveValue.ToConfigDrive "http://example.com/image.iso.gz"
      = .ok "http://example.com/image.iso.gz" :=
  ⟨rfl, rfl⟩

/-! ## Detailed listing -/

/-- C9: for every `ListOpts` with non-empty `Fields`, `ListDetail` returns the pager
that holds the error of `ToNodeListDetailQuery` and has no client, URL or page
constructor; and for any options builder, a pager over the detail URL (followed by the
query) is built exactly when the builder is `nil` or its detail query has no error. -/
theorem listDetail_with_fields_builds_no_pager (listDetailURL : ServiceClient → String)
    (client : ServiceClient) (opts : ListOpts) (h : opts.Fields ≠ []) :
    ListDetail listDetailURL client (some opts.asBuilder)
        = { client := none, initialURL := "", createPage := none,
            Err := opts.ToNodeListDetailQuery.2 } ∧
    opts.ToNodeListDetailQuery.2
        = some "fields is not a valid option when getting a detailed listing of nodes" ∧
    ∀ b : Option ListOptsBuilder,
      ((b = none ∨ ∃ o, b = some o ∧ o.ToNodeListDetailQuery.2 = none) ↔
        ListDetail listDetailURL client b
          = NewPager client
              (listDetailURL client ++ (b.map fun o => o.ToNodeListDetailQuery.1).getD "")
              .nodePage) ∧
      ((∃ o err, b = some o ∧ o.ToNodeListDetailQuery.2 = some err) ↔
        (ListDetail listDetailURL client b).client = none) := by
  have hlen : opts.Fields.length > 0 := List.length_pos.mpr h
  have hq : opts.ToNodeListDetailQuery
      = ("", some "fields is not a valid option when getting a detailed listing of nodes") := by
    simp [ListOpts.ToNodeListDetailQuery, hlen]
  refine ⟨?_, ?_, ?_⟩
  · simp [ListDetail, ListOpts.asBuilder, hq]
  · simp [hq]
  · intro b
    cases b with
    | none => simp [ListDetail, NewPager]
    | some o =>
      rcases hres : o.ToNodeListDetailQuery with ⟨query, err⟩
      cases err with
      | none => simp [ListDetail, NewPager, hres]
      | some e => simp [ListDetail, NewPager, hres]

/-- C9 at the options of `TestListOpts`, `Fields = ["name", "uuid"]`. -/
theorem listDetail_with_fields_builds_no_pager_witness :
    ({ Fields := ["name", "uuid"] } : ListOpts).Fields ≠ [] ∧
    ListDetail (fun c => c.Endpoint ++ "nodes/detail") { Endpoint := "http://ironic/v1/" }
        (some ({ Fields := ["name", "uuid"] } : ListOpts).asBuilder)
      = { client := none, initialURL := "", createPage := none,
          Err := some "fields is not a valid option when getting a detailed listing of nodes" } :=
  ⟨by decide,
   (listDetail_with_fields_builds_no_pager (fun c => c.Endpoint ++ "nodes/detail")
      { Endpoint := "http://ironic/v1/" } { Fields := ["name", "uuid"] } (by decide)).1⟩

/-! ## The ISO tool -/

/-- C10: for every directory path, once the temporary file `iso` exists: when the run
of `mkisofs` fails with the error `e`, `PackDirectoryAsISO` returns no buffer and the
error "error creating configdrive iso: " followed by `e`, whatever `GzipFile` would
have made of the file; and when the run succeeds, the result is `GzipFile` of the
temporary file, read in the state the run has left. -/
theorem packDirectoryAsISO_tool_failure {σ : Type} (compress : List Byte → List Byte)
    (host : Host σ) (s s1 s2 : σ) (path iso : String) (status : Option GoError)
    (htemp : host.TempFile s "" "gophercloud-iso" = (.ok iso, s1))
    (hrun : host.Run s1 "mkisofs" (mkisofsArgs iso path) = (status, s2)) :
    (∀ e, status = some e →
      PackDirectoryAsISO compress host s path
        = (.error ("error creating configdrive iso: " ++ e), s2)) ∧
    (status = none →
      PackDirectoryAsISO compress host s path = (GzipFile compress host s2 iso, s2)) ∧
    ((∃ buf, (PackDirectoryAsISO compress host s path).1 = .ok buf) → status = none) := by
  cases status with
  | none => simp [PackDirectoryAsISO, htemp, hrun]
  | some e => simp [PackDirectoryAsISO, htemp, hrun]

/-- C10 on the example host: packing `/srv/missing` fails with the tool's error, packing
`/srv/config` gives the gzipped temporary file. -/
theorem packDirectoryAsISO_tool_failure_witness :
    PackDirectoryAsISO deflateLiterals exampleHost 0 "/srv/missing"
      = (.error "error creating configdrive iso: exit status 1", 1) ∧
    PackDirectoryAsISO deflateLiterals exampleHost 0 "/srv/config"
      = (GzipFile deflateLiterals exampleHost 1 "/tmp/gophercloud-iso1", 1) :=
  ⟨(packDirectoryAsISO_tool_failure deflateLiterals exampleHost 0 0 1 "/srv/missing"
      "/tmp/gophercloud-iso1" (some "exit status 1") rfl rfl).1 "exit status 1" rfl,
   (packDirectoryAsISO_tool_failure deflateLiterals exampleHost 0 0 1 "/srv/config"
      "/tmp/gophercloud-iso1" none rfl rfl).2.1 rfl⟩

/-! ## The two query forms -/

/-- C11: for every `ListOpts` whose `Fields` is empty, `ToNodeListDetailQuery` returns
exactly the query string and the error that `ToNodeListQuery` returns; hence the two
forms can differ only for options with a non-empty `Fields`. -/
theorem detail_query_agrees_without_fields (opts : ListOpts) (h : opts.Fields = []) :
    opts.ToNodeListDetailQuery = opts.ToNodeListQuery ∧
    opts.ToNodeListDetailQuery.1 = opts.ToNodeListQuery.1 ∧
    opts.ToNodeListDetailQuery.2 = opts.ToNodeListQuery.2 ∧
    ∀ o : ListOpts, o.ToNodeListDetailQuery ≠ o.ToNodeListQuery → o.Fields ≠ [] := by
  have hagree : ∀ o : ListOpts, o.Fields = [] →
      o.ToNodeListDetailQuery = o.ToNodeListQuery := by
    intro o ho
    simp [ListOpts.ToNodeListDetailQuery, ListOpts.ToNodeListQuery, ho]
  refine ⟨hagree opts h, by rw [hagree opts h], by rw [hagree opts h], ?_⟩
  intro o hdiff ho
  exact hdiff (hagree o ho)

/-- C11 at options that filter by driver and maintenance and ask for pages of five: both
forms give `?driver=ipmi&limit=5&maintenance=true` and no error. -/
theorem detail_query_agrees_without_fields_witness :
    ({ Driver := "ipmi", Maintenance := true, Limit := 5 } : ListOpts).Fields = [] ∧
    ({ Driver := "ipmi", Maintenance := true, Limit := 5 } : ListOpts).ToNodeListDetailQuery
      = ({ Driver := "ipmi", Maintenance := true, Limit := 5 } : ListOpts).ToNodeListQuery ∧
    ({ Driver := "ipmi", Maintenance := true, Limit := 5 } : ListOpts).ToNodeListQuery
      = ("?driver=ipmi&limit=5&maintenance=true", none) :=
  ⟨rfl,
   (detail_query_agrees_without_fields
      { Driver := "ipmi", Maintenance := true, Limit := 5 } rfl).1,
   by decide⟩

end Gophercloud
